import Mathlib

/-!
Shallow embedding of the scan-orchestration pipeline
(checkpoint store, upload state machine, GitHub token pool,
commit-replay planner, metrics exporter) together with proofs of the
specification's claims about it.

Conventions of the embedding:
* SQL rows become association lists keyed by the primary-key column;
  an `UPDATE ... WHERE pk = ?` is a map over the matching entries and an
  `INSERT` is an append (inserts only happen after a lookup miss, as in
  the source).
* `time.time()` timestamps are abstract `Nat` values passed in by the
  caller ("now"); only their ordering matters.
* Python `None` becomes `Option.none`; SQL `COALESCE(new, old)` becomes
  the `coalesce` function below.
* Store I/O failures are modelled by a `write_fails` oracle: the
  variants suffixed `E` return `Except` and reproduce the source's
  `try/except` structure (an exception inside the `with conn` block
  rolls the transaction back, so the store is unchanged).
-/

namespace Sccso

/-! ### Checkpoint store: `src/checkpoint.py` -/

/-- Status column of the `scans` table: 'PENDING', 'PROCESSED', 'FAILED'. -/
inductive ScanStatus where
  | PENDING
  | PROCESSED
  | FAILED
deriving DecidableEq, Repr

/-- One row of the `scans` table (primary key `commit_sha` is the
association-list key and is kept outside the row). -/
structure ScanRow where
  status : ScanStatus
  error_msg : Option String
  repo_name : Option String
  project_key : Option String
  repo_url : Option String
  updated_at : Nat
deriving DecidableEq, Repr

/-- The `scans` table, keyed by `commit_sha`. -/
abbrev Store := List (String × ScanRow)

/-- `SELECT ... WHERE commit_sha = ?` (first matching row). -/
def lookupRow (st : Store) (sha : String) : Option ScanRow :=
  (st.find? (fun p => p.1 == sha)).map Prod.snd

/-- `UPDATE scans SET ... WHERE commit_sha = ?`: each matching row is
rewritten from its own previous values. -/
def updateRow (st : Store) (sha : String) (f : ScanRow → ScanRow) : Store :=
  st.map (fun p => if p.1 == sha then (p.1, f p.2) else p)

/-- SQL `COALESCE(incoming, old)` for the metadata columns: the incoming
value wins only when it is non-null. -/
def coalesce (incoming old : Option String) : Option String :=
  match incoming with
  | some v => some v
  | none => old

/-- `CheckpointManager.try_claim_commit` (src/checkpoint.py:190-242),
success path (no store I/O failure).  Returns the boolean result and the
store after the call. -/
def try_claim_commit (st : Store) (commit_sha : String)
    (repo_name project_key repo_url : Option String) (now : Nat) :
    Bool × Store :=
  match lookupRow st commit_sha with
  | some row =>
    if row.status = .PROCESSED ∨ row.status = .FAILED then
      (false, st)
    else
      (true, updateRow st commit_sha (fun r =>
        { r with
          updated_at := now,
          repo_name := coalesce repo_name r.repo_name,
          project_key := coalesce project_key r.project_key,
          repo_url := coalesce repo_url r.repo_url }))
  | none =>
    (true, st ++ [(commit_sha,
      { status := .PENDING, error_msg := none, repo_name := repo_name,
        project_key := project_key, repo_url := repo_url, updated_at := now })])

/-- `CheckpointManager._update_status` (src/checkpoint.py:274-305),
success path: one `UPDATE` statement; a miss on `commit_sha` updates
nothing and creates nothing. -/
def update_status (st : Store) (commit_sha : String) (status : ScanStatus)
    (error : Option String) (repo_name project_key repo_url : Option String)
    (now : Nat) : Store :=
  updateRow st commit_sha (fun r =>
    { status := status,
      error_msg := error,
      updated_at := now,
      repo_name := coalesce repo_name r.repo_name,
      project_key := coalesce project_key r.project_key,
      repo_url := coalesce repo_url r.repo_url })

/-- `CheckpointManager.mark_processed` (src/checkpoint.py:255-262). -/
def mark_processed (st : Store) (commit_sha : String)
    (repo_name project_key repo_url : Option String) (now : Nat) : Store :=
  update_status st commit_sha .PROCESSED none repo_name project_key repo_url now

/-- `CheckpointManager.mark_failed` (src/checkpoint.py:264-272). -/
def mark_failed (st : Store) (commit_sha : String) (error : String)
    (repo_name project_key repo_url : Option String) (now : Nat) : Store :=
  update_status st commit_sha .FAILED (some error) repo_name project_key repo_url now

/-- Body of `try_claim_commit` before exception handling: when the
`write_fails` oracle is set, the write statement (INSERT or UPDATE)
raises, modelled as `Except.error`. -/
def try_claim_commit_raw (write_fails : Bool) (st : Store) (commit_sha : String)
    (repo_name project_key repo_url : Option String) (now : Nat) :
    Except String (Bool × Store) :=
  match lookupRow st commit_sha with
  | some row =>
    if row.status = .PROCESSED ∨ row.status = .FAILED then
      .ok (false, st)
    else if write_fails then
      .error "database I/O error during UPDATE"
    else
      .ok (try_claim_commit st commit_sha repo_name project_key repo_url now)
  | none =>
    if write_fails then
      .error "database I/O error during INSERT"
    else
      .ok (try_claim_commit st commit_sha repo_name project_key repo_url now)

/-- `try_claim_commit` with its exception handling
(src/checkpoint.py:238-242): `except sqlite3.IntegrityError: return
False` and `except Exception: log; return False` both swallow the error
and return `False`; the transaction is rolled back, so the store is the
pre-call store. -/
def try_claim_commitE (write_fails : Bool) (st : Store) (commit_sha : String)
    (repo_name project_key repo_url : Option String) (now : Nat) :
    Except String (Bool × Store) :=
  match try_claim_commit_raw write_fails st commit_sha repo_name project_key repo_url now with
  | .ok r => .ok r
  | .error _ => .ok (false, st)

/-- `_update_status` with its exception handling
(src/checkpoint.py:283-305): `except Exception: log` swallows the error;
the transaction is rolled back, so the store is the pre-call store. -/
def update_statusE (write_fails : Bool) (st : Store) (commit_sha : String)
    (status : ScanStatus) (error : Option String)
    (repo_name project_key repo_url : Option String) (now : Nat) :
    Except String Store :=
  match (if write_fails then
          (.error "database I/O error during UPDATE" : Except String Store)
        else
          .ok (update_status st commit_sha status error repo_name project_key repo_url now)) with
  | .ok st' => .ok st'
  | .error _ => .ok st

/-! ### Traces over the public write operations of the store -/

/-- One public write operation of the checkpoint store, as invoked by
the scheduler's worker flow (`MiniScanner.process_single_job`). -/
inductive StoreOp where
  | claim (sha : String) (repo_name project_key repo_url : Option String) (now : Nat)
  | markP (sha : String) (repo_name project_key repo_url : Option String) (now : Nat)
  | markF (sha : String) (err : String)
      (repo_name project_key repo_url : Option String) (now : Nat)
deriving DecidableEq, Repr

/-- Effect of one public write operation on the store. -/
def applyOp (st : Store) : StoreOp → Store
  | .claim sha rn pk ru now => (try_claim_commit st sha rn pk ru now).2
  | .markP sha rn pk ru now => mark_processed st sha rn pk ru now
  | .markF sha err rn pk ru now => mark_failed st sha err rn pk ru now

/-- Run a sequence of public write operations from a starting store. -/
def runOps (st : Store) (ops : List StoreOp) : Store :=
  ops.foldl applyOp st

/-- Invariant claimed by the spec: every FAILED row carries a non-empty
error message. -/
def FailedNonEmpty (st : Store) : Prop :=
  ∀ p ∈ st, p.2.status = .FAILED → p.2.error_msg ≠ none ∧ p.2.error_msg ≠ some ""

/-- An operation supplies a non-empty error string (vacuously true for
the non-failing operations). -/
def opErrNonEmpty : StoreOp → Bool
  | .markF _ err _ _ _ _ => err != ""
  | _ => true

/-! ### Upload status machine: `src/webapp.py` and
`CheckpointManager.reset_upload_states` / `mark_upload_for_resume` -/

/-- Status column of an upload record. -/
inductive UploadStatus where
  | uploaded
  | queued
  | running
  | completed
  | error
deriving DecidableEq, Repr

/-- `_can_start_upload` (src/webapp.py:629-630): an upload may be
(re-)queued unless it is queued, running or completed. -/
def can_start_upload : UploadStatus → Bool
  | .queued => false
  | .running => false
  | .completed => false
  | _ => true

/-- Per-row effect of `CheckpointManager.reset_upload_states`
(src/checkpoint.py:119-133): `SET status = 'uploaded' WHERE status IN
('queued','running')`. -/
def reset_upload_state (s : UploadStatus) : UploadStatus :=
  if s = .queued ∨ s = .running then .uploaded else s

/-- Every status change some operation of the system performs on an
upload record:
* `scan`: `scan_upload` / `scan_all_pending` (src/webapp.py:633-660)
  set status `queued` when `_can_start_upload` holds;
* `worker_run`: `_job_worker` (src/webapp.py:43-55) pops a tuple that
  was enqueued by `start_scan` callers, which had just set the upload
  `queued`, and sets it `running`;
* `worker_complete` / `worker_error`: `_job_worker`
  (src/webapp.py:57-76) moves the `running` upload to `completed` or
  `error`;
* `reset`: `reset_upload_states` maps `queued`/`running` to `uploaded`
  at startup;
* `resume`: `mark_upload_for_resume` (src/checkpoint.py:173-188) sets
  any upload back to `uploaded`. -/
inductive UStep : UploadStatus → UploadStatus → Prop
  | scan (s : UploadStatus) (h : can_start_upload s = true) : UStep s .queued
  | worker_run : UStep .queued .running
  | worker_complete : UStep .running .completed
  | worker_error : UStep .running .error
  | reset (s : UploadStatus) (h : s = .queued ∨ s = .running) : UStep s .uploaded
  | resume (s : UploadStatus) : UStep s .uploaded

/-- The strictly-forward edges of the documented lifecycle
`uploaded → queued → running → {completed, error}`. -/
def forward_edge : UploadStatus → UploadStatus → Bool
  | .uploaded, .queued => true
  | .queued, .running => true
  | .running, .completed => true
  | .running, .error => true
  | _, _ => false

/-! ### GitHub token pool: `src/pipeline/github_api.py` -/

/-- `GitHubTokenPool`: token list, cooldown dict (association list with
distinct keys, insertion-ordered like a Python dict) and round-robin
cursor.  Cooldown instants are abstract `Nat` timestamps. -/
structure GitHubTokenPool where
  tokens : List String
  cooldowns : List (String × Nat)
  cursor : Nat
deriving DecidableEq, Repr

/-- `dict.get(key, default)` on the cooldown dict. -/
def dict_get (d : List (String × Nat)) (k : String) (dflt : Nat) : Nat :=
  match d.find? (fun p => p.1 == k) with
  | some p => p.2
  | none => dflt

/-- `GitHubTokenPool.__init__` (src/pipeline/github_api.py:29-38):
tokens are stripped, empties dropped, and the cooldown dict maps each
distinct token to 0. -/
def github_token_pool_init (tokens : List String) : GitHubTokenPool :=
  let cleaned := (tokens.filter (fun t => t.trim != "")).map String.trim
  { tokens := cleaned,
    cooldowns := cleaned.foldl
      (fun d t => if d.any (fun p => p.1 == t) then d else d ++ [(t, 0)]) [],
    cursor := 0 }

/-- Result of `GitHubTokenPool.acquire`: a token plus the pool with its
advanced cursor, the no-tokens `RuntimeError`, or `AllTokensRateLimited`
carrying `retry_at`. -/
inductive AcquireResult where
  | token (tok : String) (pool : GitHubTokenPool)
  | noTokens
  | allRateLimited (retry_at : Nat)
deriving DecidableEq, Repr

/-- The `for _ in range(len(self.tokens))` loop of `acquire`
(src/pipeline/github_api.py:46-50), with the remaining iteration count
as fuel: read the token under the cursor, advance the cursor modulo the
pool size, and return the token if its cooldown has expired. -/
def acquire_go (tokens : List String) (cooldowns : List (String × Nat)) (now : Nat) :
    Nat → Nat → Option (String × Nat)
  | 0, _ => none
  | fuel + 1, cursor =>
    let token := tokens.getD cursor ""
    let cursor' := (cursor + 1) % tokens.length
    if dict_get cooldowns token 0 ≤ now then some (token, cursor')
    else acquire_go tokens cooldowns now fuel cursor'

/-- `GitHubTokenPool.next_available_at` (src/pipeline/github_api.py:62-65):
`min(self._cooldowns.values())`, or `now` when the dict is empty. -/
def next_available_at (pool : GitHubTokenPool) (now : Nat) : Nat :=
  match pool.cooldowns.map Prod.snd with
  | [] => now
  | v :: vs => vs.foldl Nat.min v

/-- `GitHubTokenPool.acquire` (src/pipeline/github_api.py:40-51). -/
def acquire (pool : GitHubTokenPool) (now : Nat) : AcquireResult :=
  if pool.tokens.isEmpty then .noTokens
  else
    match acquire_go pool.tokens pool.cooldowns now pool.tokens.length pool.cursor with
    | some (tok, cursor') => .token tok { pool with cursor := cursor' }
    | none => .allRateLimited (next_available_at pool now)

/-! ### Commit replay planner: `src/pipeline/commit_replay.py` -/

/-- Errors the GitHub client can raise into the planner:
`GitHubRateLimitError` (a `GitHubAPIError` subclass, re-raised as is),
any other `GitHubAPIError`, and exceptions that are neither (such as
`AllTokensRateLimited`), which escape both `except` clauses. -/
inductive GHErr where
  | rateLimited (retry_at : Nat) (msg : String)
  | apiError (status : Nat) (msg : String)
  | other (msg : String)
deriving DecidableEq, Repr

/-- The parts of a `GET /repos/{slug}/commits/{sha}` payload the planner
reads: `payload.get("parents") or []` where each parent contributes its
optional `"sha"` field, and the commit message
`(payload.get("commit") or {}).get("message", "")`. -/
structure Payload where
  parents : List (Option String)
  message : String
deriving DecidableEq, Repr

/-- The GitHub client as the planner consumes it: `get_commit` and
`get_commit_patch`, each taking the repo slug and a commit SHA. -/
structure GitHub where
  get_commit : String → String → Except GHErr Payload
  get_patch : String → String → Except GHErr String

/-- `ReplayCommit` dataclass. -/
structure ReplayCommit where
  sha : String
  patch : String
  message : String
deriving DecidableEq, Repr

/-- `ReplayPlan` dataclass. -/
structure ReplayPlan where
  base_sha : String
  commits : List ReplayCommit
deriving DecidableEq, Repr

/-- Errors out of `build_replay_plan`: `MissingForkCommitError(sha, msg)`,
re-raised `GitHubRateLimitError`, the `ValueError` of a target that
already exists, and uncaught exceptions. -/
inductive ReplayError where
  | missingForkCommit (sha : String) (msg : String)
  | rateLimited (retry_at : Nat) (msg : String)
  | valueError (msg : String)
  | other (msg : String)
deriving DecidableEq, Repr

/-- Message of the traversal-limit abort
(src/pipeline/commit_replay.py:56-59). -/
def traversalLimitMsg (max_depth : Nat) : String :=
  "Exceeded parent traversal limit" ++ " (" ++ toString max_depth ++
    ") before finding a reachable ancestor"

/-- The `while True` loop of `build_replay_plan`
(src/pipeline/commit_replay.py:53-107).  `fuel` counts the remaining
iterations the `depth > max_depth` guard still allows, so the initial
fuel is `max_depth`; exhausted fuel is exactly the guard firing.  The
second component counts the traversal iterations actually performed. -/
def build_replay_go (github : GitHub) (repo_slug : String)
    (commit_exists : String → Bool) (target_sha : String) (max_depth : Nat) :
    Nat → List ReplayCommit → String → List String →
    Except ReplayError ReplayPlan × Nat
  | 0, _acc, _current, _visited =>
    (.error (.missingForkCommit target_sha (traversalLimitMsg max_depth)), 0)
  | fuel + 1, acc, current, visited =>
    match github.get_commit repo_slug current with
    | .error (.rateLimited r m) => (.error (.rateLimited r m), 1)
    | .error (.apiError _ m) =>
      (.error (.missingForkCommit current
        ("GitHub API error while loading commit " ++ current ++ ": " ++ m)), 1)
    | .error (.other m) => (.error (.other m), 1)
    | .ok payload =>
      match payload.parents with
      | [parentOpt] =>
        match github.get_patch repo_slug current with
        | .error (.rateLimited r m) => (.error (.rateLimited r m), 1)
        | .error (.apiError _ m) =>
          (.error (.missingForkCommit current
            ("Failed to download patch for commit " ++ current ++ ": " ++ m)), 1)
        | .error (.other m) => (.error (.other m), 1)
        | .ok patch =>
          match parentOpt with
          | none =>
            (.error (.missingForkCommit current
              "Commit metadata missing parent SHA; cannot continue"), 1)
          | some parent_sha =>
            if commit_exists parent_sha then
              (.ok { base_sha := parent_sha,
                     commits := (acc ++ [ReplayCommit.mk current patch payload.message]).reverse }, 1)
            else if visited.contains parent_sha then
              (.error (.missingForkCommit current
                "Detected a parent traversal loop while searching for reachable ancestor"), 1)
            else
              match build_replay_go github repo_slug commit_exists target_sha max_depth
                fuel (acc ++ [ReplayCommit.mk current patch payload.message]) parent_sha
                (visited ++ [current]) with
              | (res, cnt) => (res, cnt + 1)
      | _ =>
        (.error (.missingForkCommit current
          "Cannot replay commit with zero or multiple parents"), 1)

/-- Default `max_depth` of `build_replay_plan`. -/
def replayDefaultMaxDepth : Nat := 50

/-- `build_replay_plan` (src/pipeline/commit_replay.py:35-107), paired
with the number of traversal iterations it performed. -/
def build_replay_plan (github : GitHub) (repo_slug : String)
    (target_sha : String) (commit_exists : String → Bool)
    (max_depth : Nat := replayDefaultMaxDepth) :
    Except ReplayError ReplayPlan × Nat :=
  if commit_exists target_sha then
    (.error (.valueError ("Commit " ++ target_sha ++
      " already exists, replay is unnecessary")), 0)
  else
    build_replay_go github repo_slug commit_exists target_sha max_depth
      max_depth [] target_sha []

/-- The single parent the planner reads for a commit: defined exactly
when `get_commit` succeeds with a one-element parent list carrying a
SHA. -/
def parentOf (github : GitHub) (repo_slug sha : String) : Option String :=
  match github.get_commit repo_slug sha with
  | .ok payload =>
    match payload.parents with
    | [some p] => some p
    | _ => none
  | .error _ => none

/-- A commit list is a linear chain rooted at `base`, oldest first: the
head's (single) parent is `base` and each later element's parent is its
predecessor's SHA. -/
def isChainFrom (github : GitHub) (repo_slug : String) :
    String → List ReplayCommit → Bool
  | _, [] => true
  | base, c :: rest =>
    (parentOf github repo_slug c.sha == some base) &&
      isChainFrom github repo_slug c.sha rest

/-! ### Metrics exporter: `src/batch_fetch_all_measures.py` -/

/-- One entry of a measure's `periods` array. -/
structure Period where
  value : Option String
deriving DecidableEq, Repr

/-- One measure returned by `/api/measures/component`.  Scalar values
are modelled post-`str()`, as the strings the exporter writes. -/
structure Measure where
  metric : Option String
  value : Option String
  periods : List Period
deriving DecidableEq, Repr

/-- The value the exporter reads off a measure: the scalar `value`, or,
when that is absent and a non-empty `periods` array exists, the first
period's `value` (src/batch_fetch_all_measures.py:358-360, 379-382). -/
def measureEffectiveValue (m : Measure) : Option String :=
  match m.value with
  | some v => some v
  | none =>
    match m.periods with
    | [] => none
    | p :: _ => p.value

/-- `is_project_pending` (src/batch_fetch_all_measures.py:349-363):
pending iff there is no measure whose effective value is present and
non-blank (`str(value).strip()` truthy). -/
def is_project_pending (measures : List Measure) : Bool :=
  if measures.isEmpty then true
  else !(measures.any (fun m =>
    match measureEffectiveValue m with
    | some v => v.trim != ""
    | none => false))

/-- Spec-side predicate (the claim's words): some fetched measure
carries a non-empty value, a measure's value being its scalar `value`
or, when the scalar is absent, its first period's value. -/
def SomeMeasureNonEmpty (measures : List Measure) : Prop :=
  ∃ m ∈ measures, ∃ v, measureEffectiveValue m = some v ∧ v.trim ≠ ""

/-- Python-dict assignment on a CSV row: overwrite the existing key in
place or append a new one. -/
def dictSet (d : List (String × String)) (k v : String) : List (String × String) :=
  if d.any (fun p => p.1 == k) then
    d.map (fun p => if p.1 == k then (k, v) else p)
  else d ++ [(k, v)]

/-- `looks like a commit SHA`: 40 characters, all lowercase hex once
lowered (src/batch_fetch_all_measures.py:271-273). -/
def looksLikeSha (s : String) : Bool :=
  s.length == 40 &&
    s.toLower.data.all (fun c => ("0123456789abcdef").contains c)

/-- `parse_component_key` (src/batch_fetch_all_measures.py:262-281). -/
def parse_component_key (component_key : String) : String × String :=
  let parts := component_key.splitOn "_"
  if parts.length ≥ 2 then
    match (List.range parts.length).reverse.find?
        (fun i => looksLikeSha (parts.getD i "")) with
    | some i => (String.intercalate "_" (parts.take i), parts.getD i "")
    | none => (String.intercalate "_" parts.dropLast, parts.getLastD "")
  else (component_key, "")

/-- `measures_to_row` (src/batch_fetch_all_measures.py:366-384): repo and
commit parsed from the component key, every metric column pre-filled
with "", then each measure's effective value written under its metric
key (falsy metric keys skipped). -/
def measures_to_row (component_key : String) (metrics : List String)
    (measures : List Measure) : List (String × String) :=
  let rc := parse_component_key component_key
  let row := [("repo", rc.1), ("commit", rc.2)]
  let row := metrics.foldl (fun r m => dictSet r m "") row
  measures.foldl (fun r measure =>
    match measure.metric with
    | none => r
    | some mk =>
      if mk == "" then r
      else
        dictSet r mk
          (match measureEffectiveValue measure with
           | none => ""
           | some s => s)) row

/-- Observable per-project output state of `main`'s export loop:
streamed CSV rows, streamed JSONL lines, progress-file keys and the
three counters. -/
structure ExportState where
  csvRows : List (List (String × String))
  jsonlLines : List (String × List Measure)
  processedKeys : List String
  success : Nat
  failures : Nat
  skipped_pending : Nat
deriving DecidableEq, Repr

/-- One iteration of `main`'s result loop for a successfully fetched
project (src/batch_fetch_all_measures.py:561-591): a pending project
only bumps `skipped_pending`; otherwise a CSV row is appended, a JSONL
line is appended when enabled, the key is appended to the progress file
and `success` is bumped. -/
def export_process_project (jsonl_enabled : Bool) (metrics : List String)
    (st : ExportState) (key : String) (measures : List Measure) : ExportState :=
  if is_project_pending measures then
    { st with skipped_pending := st.skipped_pending + 1 }
  else
    { st with
      csvRows := st.csvRows ++ [measures_to_row key metrics measures],
      jsonlLines := st.jsonlLines ++ (if jsonl_enabled then [(key, measures)] else []),
      processedKeys := st.processedKeys ++ [key],
      success := st.success + 1 }

/-- Concrete GitHub oracle used to witness the replay-plan theorems:
commit `b` has the single parent `a` and a patch; nothing else exists. -/
def demoGitHub : GitHub :=
  { get_commit := fun _ sha =>
      if sha == "b" then .ok { parents := [some "a"], message := "m" }
      else .error (.apiError 404 "missing"),
    get_patch := fun _ _ => .ok "diff" }

/-- Local-commit oracle for the witness: only `a` exists locally. -/
def demoCommitExists (sha : String) : Bool := sha == "a"

/-! ## Theorems -/

/-! ### Association-list facts about the `scans` table -/

theorem lookupRow_append_self {st : Store} {sha : String} (r : ScanRow)
    (h : lookupRow st sha = none) :
    lookupRow (st ++ [(sha, r)]) sha = some r := by
  have hn : st.find? (fun p => p.1 == sha) = none := by
    cases hf : st.find? (fun p => p.1 == sha) with
    | none => rfl
    | some q => simp [lookupRow, hf] at h
  simp [lookupRow, List.find?_append, hn, List.find?]

theorem lookupRow_updateRow_self {st : Store} {sha : String} {r : ScanRow}
    (f : ScanRow → ScanRow) (h : lookupRow st sha = some r) :
    lookupRow (updateRow st sha f) sha = some (f r) := by
  induction st with
  | nil => simp [lookupRow] at h
  | cons p rest ih =>
    by_cases hk : p.1 == sha
    · simp [lookupRow, List.find?, hk] at h
      simp [lookupRow, updateRow, List.find?, hk, h]
    · simp only [lookupRow, updateRow, List.map_cons, List.find?] at h ⊢
      simp only [hk, Bool.false_eq_true, if_false] at h ⊢
      simpa [lookupRow, updateRow] using ih (by simpa [lookupRow] using h)

theorem updateRow_of_none {st : Store} {sha : String} (f : ScanRow → ScanRow)
    (h : lookupRow st sha = none) : updateRow st sha f = st := by
  induction st with
  | nil => rfl
  | cons p rest ih =>
    by_cases hk : p.1 == sha
    · simp [lookupRow, List.find?, hk] at h
    · simp only [lookupRow, List.find?, hk, Bool.false_eq_true, if_false] at h
      simp only [updateRow, List.map_cons, hk, Bool.false_eq_true, if_false]
      have := ih (by simpa [lookupRow] using h)
      simpa [updateRow] using this

theorem try_claim_commit_absent (st : Store) (sha : String)
    (rn pk ru : Option String) (now : Nat) (h : lookupRow st sha = none) :
    try_claim_commit st sha rn pk ru now =
      (true, st ++ [(sha,
        { status := .PENDING, error_msg := none, repo_name := rn,
          project_key := pk, repo_url := ru, updated_at := now })]) := by
  unfold try_claim_commit
  rw [h]

theorem try_claim_commit_terminal (st : Store) (sha : String) (r : ScanRow)
    (rn pk ru : Option String) (now : Nat) (h : lookupRow st sha = some r)
    (hs : r.status = .PROCESSED ∨ r.status = .FAILED) :
    try_claim_commit st sha rn pk ru now = (false, st) := by
  unfold try_claim_commit
  rw [h]
  exact if_pos hs

theorem try_claim_commit_not_terminal (st : Store) (sha : String) (r : ScanRow)
    (rn pk ru : Option String) (now : Nat) (h : lookupRow st sha = some r)
    (hs : ¬(r.status = .PROCESSED ∨ r.status = .FAILED)) :
    try_claim_commit st sha rn pk ru now =
      (true, updateRow st sha (fun q =>
        { q with
          updated_at := now,
          repo_name := coalesce rn q.repo_name,
          project_key := coalesce pk q.project_key,
          repo_url := coalesce ru q.repo_url })) := by
  unfold try_claim_commit
  rw [h]
  exact if_neg hs

/-! ### C1: claim / resume / terminal cycle of `try_claim_commit` -/

/-- C1: for a commit SHA absent from the store, `try_claim_commit`
returns `True` and inserts a PENDING row; a second `try_claim_commit`
while the row is PENDING again returns `True` (resume); and after
`mark_processed` a further `try_claim_commit` returns `False` and leaves
the store unchanged. -/
theorem claim_resume_terminal_cycle (st : Store) (sha : String)
    (rn1 pk1 ru1 rn2 pk2 ru2 rn3 pk3 ru3 rn4 pk4 ru4 : Option String)
    (t1 t2 t3 t4 : Nat) (habs : lookupRow st sha = none) :
    (try_claim_commit st sha rn1 pk1 ru1 t1).1 = true ∧
    (∃ row, lookupRow (try_claim_commit st sha rn1 pk1 ru1 t1).2 sha = some row ∧
      row.status = .PENDING) ∧
    (try_claim_commit (try_claim_commit st sha rn1 pk1 ru1 t1).2 sha rn2 pk2 ru2 t2).1 = true ∧
    try_claim_commit
        (mark_processed
          (try_claim_commit (try_claim_commit st sha rn1 pk1 ru1 t1).2 sha rn2 pk2 ru2 t2).2
          sha rn3 pk3 ru3 t3)
        sha rn4 pk4 ru4 t4 =
      (false,
        mark_processed
          (try_claim_commit (try_claim_commit st sha rn1 pk1 ru1 t1).2 sha rn2 pk2 ru2 t2).2
          sha rn3 pk3 ru3 t3) := by
  have e1 := try_claim_commit_absent st sha rn1 pk1 ru1 t1 habs
  have h1 : lookupRow (try_claim_commit st sha rn1 pk1 ru1 t1).2 sha =
      some { status := .PENDING, error_msg := none, repo_name := rn1,
             project_key := pk1, repo_url := ru1, updated_at := t1 } := by
    rw [e1]
    exact lookupRow_append_self _ habs
  have e2 := try_claim_commit_not_terminal _ sha _ rn2 pk2 ru2 t2 h1 (by simp)
  have h2 : lookupRow (try_claim_commit
      (try_claim_commit st sha rn1 pk1 ru1 t1).2 sha rn2 pk2 ru2 t2).2 sha =
      some { status := .PENDING, error_msg := none, repo_name := coalesce rn2 rn1,
             project_key := coalesce pk2 pk1, repo_url := coalesce ru2 ru1,
             updated_at := t2 } := by
    rw [e2]
    dsimp only
    exact lookupRow_updateRow_self _ h1
  have h3 : lookupRow (mark_processed
      (try_claim_commit (try_claim_commit st sha rn1 pk1 ru1 t1).2 sha rn2 pk2 ru2 t2).2
      sha rn3 pk3 ru3 t3) sha =
      some { status := .PROCESSED, error_msg := none,
             repo_name := coalesce rn3 (coalesce rn2 rn1),
             project_key := coalesce pk3 (coalesce pk2 pk1),
             repo_url := coalesce ru3 (coalesce ru2 ru1), updated_at := t3 } := by
    unfold mark_processed update_status
    exact lookupRow_updateRow_self _ h2
  exact ⟨by rw [e1], ⟨_, h1, rfl⟩, by rw [e2],
    try_claim_commit_terminal _ sha _ rn4 pk4 ru4 t4 h3 (Or.inl rfl)⟩

/-- C1 witness at the empty store and SHA "a". -/
theorem claim_resume_terminal_cycle_witness :
    (try_claim_commit [] "a" none none none 0).1 = true ∧
    (∃ row, lookupRow (try_claim_commit [] "a" none none none 0).2 "a" = some row ∧
      row.status = .PENDING) ∧
    (try_claim_commit (try_claim_commit [] "a" none none none 0).2 "a" none none none 1).1 = true ∧
    try_claim_commit
        (mark_processed
          (try_claim_commit (try_claim_commit [] "a" none none none 0).2 "a" none none none 1).2
          "a" none none none 2)
        "a" none none none 3 =
      (false,
        mark_processed
          (try_claim_commit (try_claim_commit [] "a" none none none 0).2 "a" none none none 1).2
          "a" none none none 2) :=
  claim_resume_terminal_cycle [] "a" none none none none none none none none none
    none none none 0 1 2 3 rfl

/-! ### C2: store write errors are swallowed, not propagated -/

/-- C2 (divergence from the spec): `try_claim_commitE` never surfaces an
error to its caller — every call returns `.ok`; at the failing input (a
fresh SHA over the empty store with the underlying INSERT raising) it
returns the non-error result `False` with the store untouched, and
`update_statusE` with a raising UPDATE also returns normally, leaving
the store untouched.  The spec requires the write error to propagate. -/
theorem store_write_error_swallowed :
    (∀ (write_fails : Bool) (st : Store) (sha : String)
        (rn pk ru : Option String) (now : Nat),
      ∃ r, try_claim_commitE write_fails st sha rn pk ru now = .ok r) ∧
    try_claim_commitE true [] "a" none none none 0 = .ok (false, []) ∧
    update_statusE true
        [("a", { status := .PENDING, error_msg := none, repo_name := none,
                 project_key := none, repo_url := none, updated_at := 0 })]
        "a" .PROCESSED none none none none 1 =
      .ok [("a", { status := .PENDING, error_msg := none, repo_name := none,
                   project_key := none, repo_url := none, updated_at := 0 })] := by
  refine ⟨?_, rfl, rfl⟩
  intro write_fails st sha rn pk ru now
  unfold try_claim_commitE
  cases try_claim_commit_raw write_fails st sha rn pk ru now with
  | ok r => exact ⟨r, rfl⟩
  | error e => exact ⟨(false, st), rfl⟩

/-! ### C4: FAILED rows and their error messages -/

theorem failedNonEmpty_updateRow {st : Store} (sha : String) (f : ScanRow → ScanRow)
    (hinv : FailedNonEmpty st)
    (hf : ∀ r : ScanRow,
      ((f r).status = r.status ∧ (f r).error_msg = r.error_msg) ∨
      ((f r).status = .FAILED → (f r).error_msg ≠ none ∧ (f r).error_msg ≠ some "")) :
    FailedNonEmpty (updateRow st sha f) := by
  intro p hp hF
  rcases List.mem_map.mp hp with ⟨q, hq, hqe⟩
  by_cases hk : (q.1 == sha) = true
  · rw [if_pos hk] at hqe
    subst hqe
    rcases hf q.2 with ⟨hs, he⟩ | hgood
    · rw [he]
      exact hinv q hq (by rw [← hs]; exact hF)
    · exact hgood hF
  · rw [if_neg hk] at hqe
    subst hqe
    exact hinv q hq hF

theorem failedNonEmpty_applyOp {st : Store} {op : StoreOp}
    (hinv : FailedNonEmpty st) (hop : opErrNonEmpty op = true) :
    FailedNonEmpty (applyOp st op) := by
  cases op with
  | claim sha rn pk ru now =>
    show FailedNonEmpty (try_claim_commit st sha rn pk ru now).2
    cases hl : lookupRow st sha with
    | some row =>
      by_cases hterm : row.status = .PROCESSED ∨ row.status = .FAILED
      · rw [try_claim_commit_terminal st sha row rn pk ru now hl hterm]
        exact hinv
      · rw [try_claim_commit_not_terminal st sha row rn pk ru now hl hterm]
        dsimp only
        exact failedNonEmpty_updateRow sha _ hinv (fun r => Or.inl ⟨rfl, rfl⟩)
    | none =>
      rw [try_claim_commit_absent st sha rn pk ru now hl]
      intro p hp hF
      rcases List.mem_append.mp hp with h1 | h2
      · exact hinv p h1 hF
      · simp only [List.mem_singleton] at h2
        rw [h2] at hF
        exact absurd hF (by simp)
  | markP sha rn pk ru now =>
    show FailedNonEmpty (mark_processed st sha rn pk ru now)
    unfold mark_processed update_status
    refine failedNonEmpty_updateRow sha _ hinv (fun r => Or.inr (fun hr => ?_))
    simp at hr
  | markF sha err rn pk ru now =>
    show FailedNonEmpty (mark_failed st sha err rn pk ru now)
    have herr : err ≠ "" := by simpa [opErrNonEmpty] using hop
    unfold mark_failed update_status
    refine failedNonEmpty_updateRow sha _ hinv
      (fun r => Or.inr (fun _ => ⟨by simp, by simpa using herr⟩))

theorem runOps_failedNonEmpty (st : Store) (ops : List StoreOp)
    (hinv : FailedNonEmpty st) (hops : ∀ op ∈ ops, opErrNonEmpty op = true) :
    FailedNonEmpty (runOps st ops) := by
  induction ops generalizing st with
  | nil => exact hinv
  | cons op rest ih =>
    exact ih _ (failedNonEmpty_applyOp hinv (hops op (by simp)))
      (fun o ho => hops o (List.mem_cons_of_mem _ ho))

/-- C4 counterexample: `mark_failed` is a public operation and accepts
the empty error string (as `str(e)` of a caught bare exception can be),
producing a FAILED row whose error message is empty. -/
theorem c4_counterexample :
    ¬ FailedNonEmpty
        (runOps [] [.claim "a" none none none 0, .markF "a" "" none none none 1]) := by
  unfold FailedNonEmpty
  decide

/-- C4 (amended): in every store state reachable from the empty store
through the public write operations, every FAILED row carries a
non-empty error message, provided every `mark_failed` in the trace
supplies a non-empty error string (as the scheduler's literal
"Scanner command failed" does; `str(e)` of a caught exception need
not). -/
theorem c4_failed_rows_carry_error (ops : List StoreOp)
    (hops : ∀ op ∈ ops, opErrNonEmpty op = true) :
    FailedNonEmpty (runOps [] ops) :=
  runOps_failedNonEmpty [] ops (fun p hp => absurd hp (by simp)) hops

/-- C4 witness: a claim followed by a failure with a non-empty message. -/
theorem c4_failed_rows_carry_error_witness :
    FailedNonEmpty
      (runOps [] [.claim "a" none none none 0, .markF "a" "boom" none none none 1]) :=
  c4_failed_rows_carry_error
    [.claim "a" none none none 0, .markF "a" "boom" none none none 1] (by decide)

/-! ### C9 and C10: metadata frame conditions of `_update_status` -/

/-- C9: `mark_processed` and `mark_failed` on an existing row overwrite
each metadata field only when the incoming value is non-null; a null
incoming value preserves the previously recorded value. -/
theorem mark_meta_coalesce (st : Store) (sha : String) (r : ScanRow)
    (err : String) (rn pk ru : Option String) (now : Nat)
    (h : lookupRow st sha = some r) :
    (∃ r', lookupRow (mark_processed st sha rn pk ru now) sha = some r' ∧
      (rn = none → r'.repo_name = r.repo_name) ∧
      (∀ v, rn = some v → r'.repo_name = some v) ∧
      (pk = none → r'.project_key = r.project_key) ∧
      (∀ v, pk = some v → r'.project_key = some v) ∧
      (ru = none → r'.repo_url = r.repo_url) ∧
      (∀ v, ru = some v → r'.repo_url = some v)) ∧
    (∃ r', lookupRow (mark_failed st sha err rn pk ru now) sha = some r' ∧
      (rn = none → r'.repo_name = r.repo_name) ∧
      (∀ v, rn = some v → r'.repo_name = some v) ∧
      (pk = none → r'.project_key = r.project_key) ∧
      (∀ v, pk = some v → r'.project_key = some v) ∧
      (ru = none → r'.repo_url = r.repo_url) ∧
      (∀ v, ru = some v → r'.repo_url = some v)) := by
  unfold mark_processed mark_failed update_status
  constructor
  · refine ⟨_, lookupRow_updateRow_self _ h, ?_, ?_, ?_, ?_, ?_, ?_⟩ <;>
      first
        | (intro hv; simp [coalesce, hv])
        | (intro v hv; simp [coalesce, hv])
  · refine ⟨_, lookupRow_updateRow_self _ h, ?_, ?_, ?_, ?_, ?_, ?_⟩ <;>
      first
        | (intro hv; simp [coalesce, hv])
        | (intro v hv; simp [coalesce, hv])

/-- C9 witness: a concrete one-row store, with `repo_name` incoming and
the other metadata null. -/
theorem mark_meta_coalesce_witness :
    (∃ r', lookupRow (mark_processed
        [("a", { status := .PENDING, error_msg := none, repo_name := some "old",
                 project_key := some "key", repo_url := none, updated_at := 0 })]
        "a" (some "new") none none 5) "a" = some r' ∧
      (some "new" = none → r'.repo_name = some "old") ∧
      (∀ v, some "new" = some v → r'.repo_name = some v) ∧
      ((none : Option String) = none → r'.project_key = some "key") ∧
      (∀ v, (none : Option String) = some v → r'.project_key = some v) ∧
      ((none : Option String) = none → r'.repo_url = none) ∧
      (∀ v, (none : Option String) = some v → r'.repo_url = some v)) ∧
    (∃ r', lookupRow (mark_failed
        [("a", { status := .PENDING, error_msg := none, repo_name := some "old",
                 project_key := some "key", repo_url := none, updated_at := 0 })]
        "a" "boom" (some "new") none none 5) "a" = some r' ∧
      (some "new" = none → r'.repo_name = some "old") ∧
      (∀ v, some "new" = some v → r'.repo_name = some v) ∧
      ((none : Option String) = none → r'.project_key = some "key") ∧
      (∀ v, (none : Option String) = some v → r'.project_key = some v) ∧
      ((none : Option String) = none → r'.repo_url = none) ∧
      (∀ v, (none : Option String) = some v → r'.repo_url = some v)) :=
  mark_meta_coalesce
    [("a", { status := .PENDING, error_msg := none, repo_name := some "old",
             project_key := some "key", repo_url := none, updated_at := 0 })]
    "a"
    { status := .PENDING, error_msg := none, repo_name := some "old",
      project_key := some "key", repo_url := none, updated_at := 0 }
    "boom" (some "new") none none 5 rfl

/-- C10: `mark_processed` and `mark_failed` for a SHA with no row leave
the store completely unchanged — no row is created, none is modified. -/
theorem mark_absent_is_noop (st : Store) (sha : String) (err : String)
    (rn pk ru : Option String) (now : Nat) (h : lookupRow st sha = none) :
    mark_processed st sha rn pk ru now = st ∧
    mark_failed st sha err rn pk ru now = st := by
  unfold mark_processed mark_failed update_status
  exact ⟨updateRow_of_none _ h, updateRow_of_none _ h⟩

/-- C10 witness: a store holding only SHA "b", updated at absent "a". -/
theorem mark_absent_is_noop_witness :
    mark_processed
        [("b", { status := .PROCESSED, error_msg := none, repo_name := none,
                 project_key := none, repo_url := none, updated_at := 0 })]
        "a" (some "rn") (some "pk") (some "ru") 7 =
      [("b", { status := .PROCESSED, error_msg := none, repo_name := none,
               project_key := none, repo_url := none, updated_at := 0 })] ∧
    mark_failed
        [("b", { status := .PROCESSED, error_msg := none, repo_name := none,
                 project_key := none, repo_url := none, updated_at := 0 })]
        "a" "oops" (some "rn") (some "pk") (some "ru") 7 =
      [("b", { status := .PROCESSED, error_msg := none, repo_name := none,
               project_key := none, repo_url := none, updated_at := 0 })] :=
  mark_absent_is_noop
    [("b", { status := .PROCESSED, error_msg := none, repo_name := none,
             project_key := none, repo_url := none, updated_at := 0 })]
    "a" "oops" (some "rn") (some "pk") (some "ru") 7 rfl

/-! ### C3: upload status transitions -/

/-- C3 counterexample: the claim that every status change moves strictly
forward along `uploaded → queued → running → {completed, error}` is
false — `reset_upload_states` moves a `queued` upload back to
`uploaded`, which is not a forward edge. -/
theorem c3_counterexample :
    ¬ (∀ s s' : UploadStatus, UStep s s' → s ≠ s' → forward_edge s s' = true) := by
  intro h
  have hstep : UStep .queued .uploaded := UStep.reset _ (Or.inl rfl)
  have := h .queued .uploaded hstep (by decide)
  simp [forward_edge] at this

/-- C3 (amended): every status change performed by an operation of the
system either moves strictly forward along
`uploaded → queued → running → {completed, error}`, or is one of the
two exceptions the code contains: the recovery operations
(`reset_upload_states`, `mark_upload_for_resume`) move the upload back
to `uploaded`, and `scan_upload` / `scan_all_pending` re-queue an
upload whose status is `error` (error → queued). -/
theorem upload_steps_forward (s s' : UploadStatus) (hstep : UStep s s') :
    forward_edge s s' = true ∨ s' = .uploaded ∨
      (s = .error ∧ s' = .queued) := by
  cases hstep with
  | scan s h => cases s <;> simp_all [can_start_upload, forward_edge]
  | worker_run => exact Or.inl rfl
  | worker_complete => exact Or.inl rfl
  | worker_error => exact Or.inl rfl
  | reset s h => exact Or.inr (Or.inl rfl)
  | resume s => exact Or.inr (Or.inl rfl)

/-- C3 witness: the `uploaded → queued` step of `scan_upload`. -/
theorem upload_steps_forward_witness :
    forward_edge .uploaded .queued = true ∨
      UploadStatus.queued = UploadStatus.uploaded ∨
      (UploadStatus.uploaded = UploadStatus.error ∧
        UploadStatus.queued = UploadStatus.queued) :=
  upload_steps_forward .uploaded .queued (UStep.scan _ rfl)

/-! ### C8: the exporter writes a row iff a measure has a value -/

theorem measure_pred_iff (m : Measure) :
    (match measureEffectiveValue m with
     | some v => v.trim != ""
     | none => false) = true ↔
      ∃ v, measureEffectiveValue m = some v ∧ v.trim ≠ "" := by
  cases h : measureEffectiveValue m <;> simp [h]

theorem is_project_pending_eq_not_any (measures : List Measure) :
    is_project_pending measures =
      !(measures.any fun m =>
        match measureEffectiveValue m with
        | some v => v.trim != ""
        | none => false) := by
  unfold is_project_pending
  cases measures with
  | nil => rfl
  | cons a l => rfl

theorem is_project_pending_false_iff (measures : List Measure) :
    is_project_pending measures = false ↔ SomeMeasureNonEmpty measures := by
  rw [is_project_pending_eq_not_any, Bool.not_eq_false', List.any_eq_true]
  unfold SomeMeasureNonEmpty
  constructor
  · rintro ⟨m, hm, hpred⟩
    exact ⟨m, hm, (measure_pred_iff m).mp hpred⟩
  · rintro ⟨m, hm, hv⟩
    exact ⟨m, hm, (measure_pred_iff m).mpr hv⟩

/-- C8: the exporter's result loop appends a CSV row for a project iff
some fetched measure carries a non-empty value (a measure's value being
its scalar `value` or, when absent, its first period's value); it
appends a JSONL line iff additionally JSONL output is enabled; and
otherwise it writes nothing and counts the project as skipped-pending. -/
theorem export_writes_iff_measure_nonEmpty (jsonl_enabled : Bool)
    (metrics : List String) (st : ExportState) (key : String)
    (measures : List Measure) :
    ((export_process_project jsonl_enabled metrics st key measures).csvRows =
        st.csvRows ++ [measures_to_row key metrics measures] ↔
      SomeMeasureNonEmpty measures) ∧
    ((export_process_project jsonl_enabled metrics st key measures).jsonlLines =
        st.jsonlLines ++ [(key, measures)] ↔
      (jsonl_enabled = true ∧ SomeMeasureNonEmpty measures)) ∧
    (((export_process_project jsonl_enabled metrics st key measures).csvRows = st.csvRows ∧
      (export_process_project jsonl_enabled metrics st key measures).jsonlLines =
        st.jsonlLines ∧
      (export_process_project jsonl_enabled metrics st key measures).skipped_pending =
        st.skipped_pending + 1) ↔ ¬ SomeMeasureNonEmpty measures) := by
  by_cases hp : is_project_pending measures
  · have hno : ¬ SomeMeasureNonEmpty measures := by
      intro hsome
      rw [← is_project_pending_false_iff] at hsome
      rw [hp] at hsome
      cases hsome
    simp [export_process_project, hp, hno]
  · have hfalse : is_project_pending measures = false := by
      simpa using hp
    have hsome : SomeMeasureNonEmpty measures :=
      (is_project_pending_false_iff measures).mp hfalse
    cases jsonl_enabled <;> simp [export_process_project, hp, hsome]

/-! ### C5: token pool acquisition -/

theorem foldl_min_le (vs : List Nat) (v : Nat) :
    ∀ x, x = v ∨ x ∈ vs → vs.foldl Nat.min v ≤ x := by
  induction vs generalizing v with
  | nil =>
    intro x hx
    rcases hx with rfl | hx
    · exact Nat.le_refl x
    · cases hx
  | cons a rest ih =>
    intro x hx
    rcases hx with rfl | hx
    · exact Nat.le_trans (ih (Nat.min x a) _ (Or.inl rfl)) (Nat.min_le_left x a)
    · rcases List.mem_cons.mp hx with rfl | hx
      · exact Nat.le_trans (ih (Nat.min v x) _ (Or.inl rfl)) (Nat.min_le_right v x)
      · exact ih (Nat.min v a) x (Or.inr hx)

theorem foldl_min_mem (vs : List Nat) (v : Nat) :
    vs.foldl Nat.min v = v ∨ vs.foldl Nat.min v ∈ vs := by
  induction vs generalizing v with
  | nil => exact Or.inl rfl
  | cons a rest ih =>
    rw [List.foldl_cons]
    rcases ih (Nat.min v a) with h | h
    · rcases Nat.le_total v a with hva | hav
      · left
        rw [h]
        exact Nat.min_eq_left hva
      · right
        rw [List.mem_cons]
        left
        rw [h]
        exact Nat.min_eq_right hav
    · exact Or.inr (List.mem_cons_of_mem a h)

theorem dict_get_of_mem {d : List (String × Nat)} {p : String × Nat}
    (hnd : (d.map Prod.fst).Nodup) (hp : p ∈ d) : dict_get d p.1 0 = p.2 := by
  induction d with
  | nil => cases hp
  | cons q rest ih =>
    rcases List.mem_cons.mp hp with rfl | hmem
    · simp [dict_get, List.find?]
    · have hnd' : q.1 ∉ rest.map Prod.fst ∧ (rest.map Prod.fst).Nodup := by
        rw [List.map_cons, List.nodup_cons] at hnd
        exact hnd
      have hne : (q.1 == p.1) = false := by
        rw [beq_eq_false_iff_ne]
        intro he
        exact hnd'.1 (he ▸ List.mem_map_of_mem Prod.fst hmem)
      have := ih hnd'.2 hmem
      simpa [dict_get, List.find?, hne] using this

theorem acquire_go_none (tokens : List String) (cds : List (String × Nat)) (now : Nat)
    (hall : ∀ t ∈ tokens, now < dict_get cds t 0) :
    ∀ fuel cursor, cursor < tokens.length →
      acquire_go tokens cds now fuel cursor = none := by
  intro fuel
  induction fuel with
  | zero =>
    intro cursor _
    rfl
  | succ n ih =>
    intro cursor hc
    have htok : tokens.getD cursor "" ∈ tokens := by
      rw [List.getD_eq_getElem _ _ hc]
      exact List.getElem_mem hc
    have hlt := hall _ htok
    unfold acquire_go
    rw [if_neg (by omega)]
    exact ih _ (Nat.mod_lt _ (by omega))

theorem acquire_go_finds (tokens : List String) (cds : List (String × Nat)) (now : Nat) :
    ∀ fuel cursor, cursor < tokens.length →
      (∃ k, k < fuel ∧
        dict_get cds (tokens.getD ((cursor + k) % tokens.length) "") 0 ≤ now) →
      ∃ tok cursor', acquire_go tokens cds now fuel cursor = some (tok, cursor') ∧
        tok ∈ tokens ∧ dict_get cds tok 0 ≤ now := by
  intro fuel
  induction fuel with
  | zero =>
    rintro cursor _ ⟨k, hk, _⟩
    omega
  | succ n ih =>
    rintro cursor hc ⟨k, hk, hkle⟩
    by_cases hcur : dict_get cds (tokens.getD cursor "") 0 ≤ now
    · refine ⟨tokens.getD cursor "", (cursor + 1) % tokens.length, ?_, ?_, hcur⟩
      · unfold acquire_go
        rw [if_pos hcur]
      · rw [List.getD_eq_getElem _ _ hc]
        exact List.getElem_mem hc
    · have hgo : acquire_go tokens cds now (n + 1) cursor =
          acquire_go tokens cds now n ((cursor + 1) % tokens.length) := by
        simp only [acquire_go]
        rw [if_neg hcur]
      rw [hgo]
      apply ih ((cursor + 1) % tokens.length) (Nat.mod_lt _ (by omega))
      cases k with
      | zero =>
        exfalso
        rw [Nat.add_zero, Nat.mod_eq_of_lt hc] at hkle
        exact hcur hkle
      | succ k' =>
        refine ⟨k', by omega, ?_⟩
        have harith : ((cursor + 1) % tokens.length + k') % tokens.length =
            (cursor + (k' + 1)) % tokens.length := by
          rw [Nat.mod_add_mod]
          congr 1
          omega
        rw [harith]
        exact hkle

/-- C5: when every token's cooldown expires strictly after `now`,
`acquire` fails with `AllTokensRateLimited` whose `retry_at` is the
minimum of all tokens' cooldown expiries; when at least one token's
cooldown has expired, `acquire` returns such a token.  The
well-formedness hypotheses (cursor in range, cooldown keys distinct and
equal to the token set) hold for every pool built by
`github_token_pool_init` and maintained by `mark_rate_limited`. -/
theorem acquire_rate_limit_behaviour (pool : GitHubTokenPool) (now : Nat)
    (hne : pool.tokens ≠ [])
    (hcur : pool.cursor < pool.tokens.length)
    (hnd : (pool.cooldowns.map Prod.fst).Nodup)
    (hkt : ∀ t ∈ pool.tokens, t ∈ pool.cooldowns.map Prod.fst)
    (htk : ∀ p ∈ pool.cooldowns, p.1 ∈ pool.tokens) :
    ((∀ t ∈ pool.tokens, now < dict_get pool.cooldowns t 0) →
      acquire pool now = .allRateLimited (next_available_at pool now) ∧
      (∃ t ∈ pool.tokens, dict_get pool.cooldowns t 0 = next_available_at pool now) ∧
      (∀ t ∈ pool.tokens, next_available_at pool now ≤ dict_get pool.cooldowns t 0)) ∧
    ((∃ t ∈ pool.tokens, dict_get pool.cooldowns t 0 ≤ now) →
      ∃ tok pool', acquire pool now = .token tok pool' ∧ tok ∈ pool.tokens ∧
        dict_get pool.cooldowns tok 0 ≤ now) := by
  have hlen : 0 < pool.tokens.length := List.length_pos.mpr hne
  have hempty : pool.tokens.isEmpty = false := by
    cases h : pool.tokens with
    | nil => exact absurd h hne
    | cons a l => rfl
  constructor
  · intro hall
    have hnone := acquire_go_none pool.tokens pool.cooldowns now hall
      pool.tokens.length pool.cursor hcur
    have hacq : acquire pool now = .allRateLimited (next_available_at pool now) := by
      unfold acquire
      rw [hempty]
      simp only [Bool.false_eq_true, if_false, hnone]
    refine ⟨hacq, ?_, ?_⟩
    · have hcne : pool.cooldowns ≠ [] := by
        intro hnil
        rcases hts : pool.tokens with _ | ⟨t0, ts⟩
        · exact hne hts
        · have := hkt t0 (by rw [hts]; exact List.mem_cons_self t0 ts)
          rw [hnil] at this
          cases this
      rcases hcd : pool.cooldowns with _ | ⟨c, cs⟩
      · exact absurd hcd hcne
      · have hmin : next_available_at pool now = (cs.map Prod.snd).foldl Nat.min c.2 := by
          unfold next_available_at
          rw [hcd]
          rfl
        rcases foldl_min_mem (cs.map Prod.snd) c.2 with hm | hm
        · refine ⟨c.1, htk c (by simp [hcd]), ?_⟩
          rw [dict_get_of_mem (by rw [hcd] at hnd; exact hnd) (by simp [hcd]),
            hmin, hm]
        · rcases List.mem_map.mp hm with ⟨q, hq, hq2⟩
          refine ⟨q.1, htk q (by simp [hcd, hq]), ?_⟩
          rw [dict_get_of_mem (by rw [hcd] at hnd; exact hnd)
            (List.mem_cons_of_mem c hq), hmin, hq2]
    · intro t ht
      rcases List.mem_map.mp (hkt t ht) with ⟨q, hq, hq1⟩
      have hdg : dict_get pool.cooldowns t 0 = q.2 := by
        rw [← hq1]
        exact dict_get_of_mem hnd hq
      rw [hdg]
      rcases hcd : pool.cooldowns with _ | ⟨c, cs⟩
      · rw [hcd] at hq
        cases hq
      · have hmin : next_available_at pool now = (cs.map Prod.snd).foldl Nat.min c.2 := by
          unfold next_available_at
          rw [hcd]
          rfl
        rw [hmin]
        rw [hcd] at hq
        rcases List.mem_cons.mp hq with rfl | hq
        · exact foldl_min_le _ _ _ (Or.inl rfl)
        · exact foldl_min_le _ _ _ (Or.inr (List.mem_map_of_mem Prod.snd hq))
  · rintro ⟨t, ht, hle⟩
    rcases List.mem_iff_getElem.mp ht with ⟨i, hi, hti⟩
    have hkey : (pool.cursor + (i + pool.tokens.length - pool.cursor) %
        pool.tokens.length) % pool.tokens.length = i := by
      rw [Nat.add_mod_mod]
      rw [Nat.add_sub_cancel' (by omega : pool.cursor ≤ i + pool.tokens.length)]
      rw [Nat.add_mod_right]
      exact Nat.mod_eq_of_lt hi
    have hfind := acquire_go_finds pool.tokens pool.cooldowns now
      pool.tokens.length pool.cursor hcur
      ⟨(i + pool.tokens.length - pool.cursor) % pool.tokens.length,
        Nat.mod_lt _ hlen, by
          rw [hkey, List.getD_eq_getElem _ _ hi, hti]
          exact hle⟩
    rcases hfind with ⟨tok, cursor', hgo, htokmem, htokle⟩
    refine ⟨tok, { pool with cursor := cursor' }, ?_, htokmem, htokle⟩
    unfold acquire
    rw [hempty]
    simp only [Bool.false_eq_true, if_false, hgo]

/-- C5 witness: a two-token pool in both regimes — with `now = 3` both
cooldowns (5 and 9) are in the future and `acquire` rate-limits with
`retry_at` 5 = min; with `now = 6` the first token has expired and is
returned. -/
theorem acquire_rate_limit_behaviour_witness :
    (acquire { tokens := ["a", "b"], cooldowns := [("a", 5), ("b", 9)], cursor := 0 } 3 =
        .allRateLimited (next_available_at
          { tokens := ["a", "b"], cooldowns := [("a", 5), ("b", 9)], cursor := 0 } 3) ∧
      (∃ t ∈ ["a", "b"], dict_get [("a", 5), ("b", 9)] t 0 =
        next_available_at
          { tokens := ["a", "b"], cooldowns := [("a", 5), ("b", 9)], cursor := 0 } 3) ∧
      (∀ t ∈ ["a", "b"], next_available_at
          { tokens := ["a", "b"], cooldowns := [("a", 5), ("b", 9)], cursor := 0 } 3 ≤
        dict_get [("a", 5), ("b", 9)] t 0)) ∧
    (∃ tok pool', acquire
        { tokens := ["a", "b"], cooldowns := [("a", 5), ("b", 9)], cursor := 0 } 6 =
          .token tok pool' ∧ tok ∈ ["a", "b"] ∧
        dict_get [("a", 5), ("b", 9)] tok 0 ≤ 6) :=
  ⟨(acquire_rate_limit_behaviour
      { tokens := ["a", "b"], cooldowns := [("a", 5), ("b", 9)], cursor := 0 } 3
      (by decide) (by decide) (by decide) (by decide) (by decide)).1 (by decide),
   (acquire_rate_limit_behaviour
      { tokens := ["a", "b"], cooldowns := [("a", 5), ("b", 9)], cursor := 0 } 6
      (by decide) (by decide) (by decide) (by decide) (by decide)).2 (by decide)⟩

/-! ### C6 and C7: the commit replay planner -/

theorem build_replay_go_ok_shape (github : GitHub) (slug : String)
    (ce : String → Bool) (target : String) (md : Nat) :
    ∀ (fuel : Nat) (acc : List ReplayCommit) (current : String)
      (visited : List String) (plan : ReplayPlan) (n : Nat),
      build_replay_go github slug ce target md fuel acc current visited = (.ok plan, n) →
      isChainFrom github slug current acc.reverse = true →
      (acc = [] → current = target) →
      (∀ c, acc.head? = some c → c.sha = target) →
      ce plan.base_sha = true ∧ plan.commits ≠ [] ∧
        isChainFrom github slug plan.base_sha plan.commits = true ∧
        (∃ c, plan.commits.getLast? = some c ∧ c.sha = target) := by
  intro fuel
  induction fuel with
  | zero =>
    intro acc current visited plan n heq _ _ _
    exact absurd heq (by simp [build_replay_go])
  | succ m ih =>
    intro acc current visited plan n heq hchain hnil hhead
    cases hgc : github.get_commit slug current with
    | error e =>
      cases e <;> simp [build_replay_go, hgc] at heq
    | ok payload =>
      cases hpar : payload.parents with
      | nil => simp [build_replay_go, hgc, hpar] at heq
      | cons p0 ps =>
        cases ps with
        | cons p1 ps' => simp [build_replay_go, hgc, hpar] at heq
        | nil =>
          cases hgp : github.get_patch slug current with
          | error e2 =>
            cases e2 <;> simp [build_replay_go, hgc, hpar, hgp] at heq
          | ok patch =>
            cases p0 with
            | none => simp [build_replay_go, hgc, hpar, hgp] at heq
            | some parent =>
              simp only [build_replay_go, hgc, hpar, hgp] at heq
              by_cases hce2 : ce parent = true
              · rw [if_pos hce2] at heq
                simp only [Prod.mk.injEq] at heq
                have hplan : plan =
                    { base_sha := parent,
                      commits := (acc ++
                        [ReplayCommit.mk current patch payload.message]).reverse } := by
                  have := heq.1
                  exact (Except.ok.inj this).symm
                subst hplan
                refine ⟨hce2, by simp, ?_, ?_⟩
                · have hrev :
                      (acc ++ [ReplayCommit.mk current patch payload.message]).reverse =
                        ReplayCommit.mk current patch payload.message :: acc.reverse := by
                    simp
                  rw [hrev]
                  simp only [isChainFrom, Bool.and_eq_true]
                  constructor
                  · have hpo : parentOf github slug current = some parent := by
                      simp [parentOf, hgc, hpar]
                    simp [hpo]
                  · exact hchain
                · rw [List.getLast?_reverse]
                  cases acc with
                  | nil =>
                    exact ⟨ReplayCommit.mk current patch payload.message, rfl, hnil rfl⟩
                  | cons a as =>
                    exact ⟨a, rfl, hhead a rfl⟩
              · rw [if_neg hce2] at heq
                by_cases hvis : visited.contains parent = true
                · rw [if_pos hvis] at heq
                  simp at heq
                · rw [if_neg hvis] at heq
                  cases hrec : build_replay_go github slug ce target md m
                      (acc ++ [ReplayCommit.mk current patch payload.message]) parent
                      (visited ++ [current]) with
                  | mk res cnt =>
                    simp only [hrec, Prod.mk.injEq] at heq
                    have hpair : build_replay_go github slug ce target md m
                        (acc ++ [ReplayCommit.mk current patch payload.message]) parent
                        (visited ++ [current]) = (.ok plan, cnt) := by
                      rw [hrec, heq.1]
                    refine ih _ parent _ plan cnt hpair ?_ ?_ ?_
                    · have hrev :
                          (acc ++ [ReplayCommit.mk current patch payload.message]).reverse =
                            ReplayCommit.mk current patch payload.message :: acc.reverse := by
                        simp
                      rw [hrev]
                      simp only [isChainFrom, Bool.and_eq_true]
                      constructor
                      · have hpo : parentOf github slug current = some parent := by
                          simp [parentOf, hgc, hpar]
                        simp [hpo]
                      · exact hchain
                    · intro habs
                      exact absurd habs (by simp)
                    · intro c hc
                      cases acc with
                      | nil =>
                        simp at hc
                        subst hc
                        exact hnil rfl
                      | cons a as =>
                        simp at hc
                        subst hc
                        exact hhead a rfl

/-- C6: every successfully built replay plan has a base that exists
locally, a non-empty commit list ordered oldest-first whose head's
single parent is the base and whose every later element's parent is its
predecessor, and its last element is the target SHA. -/
theorem replay_plan_shape (github : GitHub) (slug target : String)
    (ce : String → Bool) (md : Nat) (plan : ReplayPlan) (n : Nat)
    (h : build_replay_plan github slug target ce md = (.ok plan, n)) :
    ce plan.base_sha = true ∧ plan.commits ≠ [] ∧
    isChainFrom github slug plan.base_sha plan.commits = true ∧
    (∃ c, plan.commits.getLast? = some c ∧ c.sha = target) := by
  unfold build_replay_plan at h
  by_cases hce : ce target = true
  · rw [if_pos hce] at h
    exact absurd h (by simp)
  · rw [if_neg hce] at h
    exact build_replay_go_ok_shape github slug ce target md md [] target [] plan n h
      (by simp [isChainFrom]) (fun _ => rfl) (by simp)

/-- C6 witness: replaying target `b` whose parent `a` exists locally. -/
theorem replay_plan_shape_witness :
    demoCommitExists (ReplayPlan.mk "a" [ReplayCommit.mk "b" "diff" "m"]).base_sha = true ∧
    (ReplayPlan.mk "a" [ReplayCommit.mk "b" "diff" "m"]).commits ≠ [] ∧
    isChainFrom demoGitHub "o/r"
      (ReplayPlan.mk "a" [ReplayCommit.mk "b" "diff" "m"]).base_sha
      (ReplayPlan.mk "a" [ReplayCommit.mk "b" "diff" "m"]).commits = true ∧
    (∃ c, (ReplayPlan.mk "a" [ReplayCommit.mk "b" "diff" "m"]).commits.getLast? =
      some c ∧ c.sha = "b") :=
  replay_plan_shape demoGitHub "o/r" "b" demoCommitExists 50
    (ReplayPlan.mk "a" [ReplayCommit.mk "b" "diff" "m"]) 1 rfl

theorem build_replay_go_count_le (github : GitHub) (slug : String)
    (ce : String → Bool) (target : String) (md : Nat) :
    ∀ fuel acc current visited,
      (build_replay_go github slug ce target md fuel acc current visited).2 ≤ fuel := by
  intro fuel
  induction fuel with
  | zero =>
    intro acc current visited
    simp [build_replay_go]
  | succ m ih =>
    intro acc current visited
    cases hgc : github.get_commit slug current with
    | error e =>
      cases e <;> simp [build_replay_go, hgc]
    | ok payload =>
      cases hpar : payload.parents with
      | nil => simp [build_replay_go, hgc, hpar]
      | cons p0 ps =>
        cases ps with
        | cons p1 ps' => simp [build_replay_go, hgc, hpar]
        | nil =>
          cases hgp : github.get_patch slug current with
          | error e2 =>
            cases e2 <;> simp [build_replay_go, hgc, hpar, hgp]
          | ok patch =>
            cases p0 with
            | none => simp [build_replay_go, hgc, hpar, hgp]
            | some parent =>
              simp only [build_replay_go, hgc, hpar, hgp]
              by_cases hce2 : ce parent = true
              · rw [if_pos hce2]
                simp
              · rw [if_neg hce2]
                by_cases hvis : visited.contains parent = true
                · rw [if_pos hvis]
                  simp
                · rw [if_neg hvis]
                  cases hrec : build_replay_go github slug ce target md m
                      (acc ++ [ReplayCommit.mk current patch payload.message]) parent
                      (visited ++ [current]) with
                  | mk res cnt =>
                    have hle := ih (acc ++ [ReplayCommit.mk current patch payload.message])
                      parent (visited ++ [current])
                    rw [hrec] at hle
                    simp only [hrec]
                    simp at hle ⊢
                    omega

/-- C7: `build_replay_plan` terminates within the traversal bound — its
loop performs at most `max_depth` iterations (fuel consumption is
bounded by the remaining-iteration budget), and when the budget is
exhausted without finding a locally present ancestor it raises
`missing-fork-commit` on the target whose message contains
"Exceeded parent traversal limit". -/
theorem replay_traversal_bounded (github : GitHub) (slug target : String)
    (ce : String → Bool) (md : Nat) :
    (∀ fuel acc current visited,
      (build_replay_go github slug ce target md fuel acc current visited).2 ≤ fuel) ∧
    (build_replay_plan github slug target ce md).2 ≤ md ∧
    (∀ acc current visited,
      build_replay_go github slug ce target md 0 acc current visited =
        (.error (.missingForkCommit target (traversalLimitMsg md)), 0)) ∧
    ("Exceeded parent traversal limit").data <:+: (traversalLimitMsg md).data := by
  refine ⟨build_replay_go_count_le github slug ce target md, ?_, ?_, ?_⟩
  · unfold build_replay_plan
    by_cases hce : ce target = true
    · rw [if_pos hce]
      exact Nat.zero_le md
    · rw [if_neg hce]
      exact build_replay_go_count_le github slug ce target md md [] target []
  · intro acc current visited
    rfl
  · refine ⟨[], (" (" ++ toString md ++ ") before finding a reachable ancestor").data, ?_⟩
    simp [traversalLimitMsg, String.data_append, List.append_assoc]

end Sccso
